import Mathlib

/-! # Event loop (`src/net/event_loop.cc`) and replication write queue
(`include/pika_repl_server_thread.h`)

A shallow embedding of `pikiwidb::EventLoop` and of the write queue of
`PikaReplServerThread`, followed by the properties proved about them.

Conventions of the embedding.

* An `EventObject` is identified by a handle (a natural number standing for the
  address held by the `shared_ptr`); a null `shared_ptr` is `none`.
* The unique id stored inside each object lives in `unique_id_`, a store from
  handles to ids; an object that was never given an id reads `-1`.
* `objects_` is the map from ids to handles, kept as a key-ordered list with
  unique keys.
* A failed `assert`, a null dereference, the use of an invalidated iterator and a
  loop that never ends are all rendered by `none`: the call produces no state.
* The reactor class, the callbacks run by tasks and by `Poll`, and the outcome of
  `try_lock` are not part of the translated sources; they are the fields of `Env`.
  The theorems about the loop hold for an arbitrary `Env`, except the one on the
  idempotence of `Cancel`, which needs the reactor described by the specification.
-/

namespace pikiwidb

/-! ## Machine integers -/

/-- Largest value of a 32-bit `int`. -/
def INT_MAX : Int := 2147483647

/-- Two's-complement reduction of an integer to the range of a 32-bit `int`. -/
def wrap32 (x : Int) : Int := (x + 2147483648) % 4294967296 - 2147483648

/-! ## The object map `objects_` -/

/-- The object map: pairs (unique id, object handle), ordered by id. -/
abbrev ObjectMap := List (Int × Nat)

/-- Lookup of a key: `objects_.find(k)`. -/
def mapFind : ObjectMap → Int → Option Nat
  | [], _ => none
  | (k', o) :: rest, k => if k' = k then some o else mapFind rest k

/-- Number of entries under a key: `objects_.count(k)`. -/
def mapCount (m : ObjectMap) (k : Int) : Nat :=
  match mapFind m k with
  | some _ => 1
  | none => 0

/-- The place of a new key in the key order. -/
def insertSorted : ObjectMap → Int → Nat → ObjectMap
  | [], k, o => [(k, o)]
  | (k', o') :: rest, k, o =>
    if k < k' then (k, o) :: (k', o') :: rest
    else (k', o') :: insertSorted rest k o

/-- Insertion that keeps an existing entry: `objects_.insert({k, o})`. -/
def mapInsert (m : ObjectMap) (k : Int) (o : Nat) : ObjectMap :=
  if mapCount m k ≠ 0 then m else insertSorted m k o

/-- Removal by key: `objects_.erase(k)`. -/
def mapErase (m : ObjectMap) (k : Int) : ObjectMap :=
  m.filter (fun p => decide (p.1 ≠ k))

/-! ## The unique ids stored in the event objects -/

/-- The unique ids of the objects that were given one, most recent first. -/
abbrev IdStore := List (Nat × Int)

/-- The id read from an object: `obj->GetUniqueId()`; `-1` before any id is set. -/
def GetUniqueId : IdStore → Nat → Int
  | [], _ => -1
  | (p, v) :: rest, o => if p = o then v else GetUniqueId rest o

/-- The id written into an object: `obj->SetUniqueId(id)`. -/
def SetUniqueId (h : IdStore) (o : Nat) (id : Int) : IdStore := (o, id) :: h

/-! ## Tasks, loop state, environment -/

/-- Timer identifiers. -/
abbrev TimerId := Int

/-- A task of the FIFO: the closure posted by `Cancel` from a foreign thread, or a
closure of a collaborator, known by a number. -/
inductive Task where
  | cancelTimer (id : TimerId)
  | user (n : Nat)
deriving DecidableEq, Repr

/-- The state read and written by the member functions of `EventLoop`: the members
of the loop, the process-wide id generator, and the ids stored in the objects. -/
structure EventLoop (R : Type) where
  /-- The member `reactor_`; `none` once it has been dropped. -/
  reactor_ : Option R
  /-- The member `notifier_`. -/
  notifier_ : Nat
  /-- The member `objects_`. -/
  objects_ : ObjectMap
  /-- The member `tasks_`, oldest first. -/
  tasks_ : List Task
  /-- The member `running_`. -/
  running_ : Bool
  /-- The static `obj_id_generator_`. -/
  obj_id_generator_ : Int
  /-- The unique ids held by the event objects. -/
  unique_id_ : IdStore
  /-- Number of `Notify()` calls received by the current notifier. -/
  notify_count : Nat
  /-- The next handle that an allocation of an object returns. -/
  next_object : Nat
deriving DecidableEq, Repr

/-- The parts of the program that the translated sources only call: the reactor
class (`libevent_reactor.h`), the closures queued by collaborators, the callbacks
and foreign threads that act while `Poll` blocks, and the outcome of `try_lock`. -/
structure Env (R : Type) where
  /-- The reactor built by `new internal::LibeventReactor()`. -/
  newReactor : R
  /-- The call `reactor_->Register(obj, events)`; the object is given by its
  handle and its unique id. -/
  reactorRegister : R → Nat → Int → Int → Bool × R
  /-- The call `reactor_->Modify(obj, events)`. -/
  reactorModify : R → Nat → Int → Int → Bool × R
  /-- The call `reactor_->Unregister(obj)`. -/
  reactorUnregister : R → Nat → Int → R
  /-- The call `reactor_->Cancel(id)`. -/
  reactorCancel : R → TimerId → Bool × R
  /-- Whether `task_mutex_.try_lock()` succeeds in the given tick. -/
  try_lock : Nat → Bool
  /-- What running the closure of a collaborator does to the loop. -/
  runUser : Nat → EventLoop R → EventLoop R
  /-- What happens to the loop during `reactor_->Poll()` of the given tick. -/
  Poll : Nat → EventLoop R → EventLoop R

/-- The interest mask `kEventRead`. -/
def kEventRead : Int := 1

/-! ## Id allocation -/

/-- Number of iterations granted to the id-allocation loop: `2^32`, more than the
loop can need when a positive id is free. -/
def allocFuel : Nat := 4294967296

/-- The loop of `Register` that allocates an id (lines 98-104):
`do { id = gen.fetch_add(1) + 1; if (id < 0) gen.store(0); }
 while (id < 0 || objects_.count(id) != 0);`
The result is the id and the final value of the generator. -/
def allocId : Nat → Int → ObjectMap → Option (Int × Int)
  | 0, _, _ => none
  | n + 1, gen, objs =>
    let id := wrap32 (gen + 1)
    let gen1 := wrap32 (gen + 1)
    let gen2 := if id < 0 then 0 else gen1
    if id < 0 ∨ mapCount objs id ≠ 0 then allocId n gen2 objs
    else some (id, gen2)

/-- The values that the static `obj_id_generator_` holds between two calls: it is
initialised to zero (line 16) and nothing but the allocation loop changes it. -/
inductive GeneratorValue : Int → Prop where
  | init : GeneratorValue 0
  | alloc (n : Nat) (g id g' : Int) (objs : ObjectMap) :
      GeneratorValue g → allocId n g objs = some (id, g') → GeneratorValue g'

/-! ## Register, Modify, Unregister -/

variable {R : Type}

/-- The function `EventLoop::Register` (lines 87-113). The flag `inThisLoop` is the
value of `InThisLoop()` for the calling thread. -/
def Register (env : Env R) (inThisLoop : Bool) (obj : Option Nat) (events : Int)
    (s : EventLoop R) : Option (Bool × EventLoop R) :=
  match obj with
  | none => some (false, s)
  | some o =>
    if inThisLoop = false then none
    else if GetUniqueId s.unique_id_ o ≠ -1 then none
    else
      match s.reactor_ with
      | none => some (false, s)
      | some r =>
        match allocId allocFuel s.obj_id_generator_ s.objects_ with
        | none => none
        | some (id, gen) =>
          let ids := SetUniqueId s.unique_id_ o id
          let res := env.reactorRegister r o id events
          if res.1 then
            some (true, { s with obj_id_generator_ := gen, unique_id_ := ids,
                                 reactor_ := some res.2,
                                 objects_ := mapInsert s.objects_ (GetUniqueId ids o) o })
          else
            some (false, { s with obj_id_generator_ := gen, unique_id_ := ids,
                                  reactor_ := some res.2 })

/-- The function `EventLoop::Modify` (lines 115-126). -/
def Modify (env : Env R) (inThisLoop : Bool) (obj : Option Nat) (events : Int)
    (s : EventLoop R) : Option (Bool × EventLoop R) :=
  match obj with
  | none => some (false, s)
  | some o =>
    if inThisLoop = false then none
    else if GetUniqueId s.unique_id_ o < 0 then none
    else if mapCount s.objects_ (GetUniqueId s.unique_id_ o) ≠ 1 then none
    else
      match s.reactor_ with
      | none => some (false, s)
      | some r =>
        let res := env.reactorModify r o (GetUniqueId s.unique_id_ o) events
        some (res.1, { s with reactor_ := some res.2 })

/-- The function `EventLoop::Unregister` (lines 128-141). -/
def Unregister (env : Env R) (inThisLoop : Bool) (obj : Option Nat)
    (s : EventLoop R) : Option (EventLoop R) :=
  match obj with
  | none => some s
  | some o =>
    let id := GetUniqueId s.unique_id_ o
    if inThisLoop = false then none
    else if id < 0 then none
    else if mapCount s.objects_ id ≠ 1 then none
    else
      match s.reactor_ with
      | none => some s
      | some r =>
        some { s with reactor_ := some (env.reactorUnregister r o id),
                      objects_ := mapErase s.objects_ id }

/-! ## Construction, Stop, Cancel -/

/-- The constructor `EventLoop::EventLoop` (lines 19-25): a new reactor and a new
notifier object, whose id is `-1`. The generator and the ids of the existing
objects are process-wide and are whatever they were; the initial value of
`running_` is set in the class declaration and is a parameter here. -/
def newEventLoop (env : Env R) (running : Bool) (gen : Int) (ids : IdStore)
    (next : Nat) : EventLoop R :=
  { reactor_ := some env.newReactor
    notifier_ := next
    objects_ := []
    tasks_ := []
    running_ := running
    obj_id_generator_ := gen
    unique_id_ := SetUniqueId ids next (-1)
    notify_count := 0
    next_object := next + 1 }

/-- The function `EventLoop::Stop` (lines 58-61). -/
def Stop (s : EventLoop R) : EventLoop R :=
  { s with running_ := false, notify_count := s.notify_count + 1 }

/-- The value returned by `Cancel`: a future that is already fulfilled, or one that
is fulfilled with the result of a posted closure once the loop runs it. -/
inductive Future where
  | ready (v : Bool)
  | posted (t : Task)
deriving DecidableEq, Repr

/-- The closure posted by `Cancel` (lines 72-79), run on a loop state: its result
and the state it leaves. -/
def cancelClosure (env : Env R) (id : TimerId) (s : EventLoop R) : Bool × EventLoop R :=
  match s.reactor_ with
  | none => (false, s)
  | some r =>
    let res := env.reactorCancel r id
    (res.1, { s with reactor_ := some res.2 })

/-- Running one task of the FIFO. -/
def runTask (env : Env R) (t : Task) (s : EventLoop R) : EventLoop R :=
  match t with
  | Task.cancelTimer id => (cancelClosure env id s).2
  | Task.user n => env.runUser n s

/-- Modelled from the spec: `Execute` (declared in `event_loop.h`, which is not
among the translated files) called from a thread that does not own the loop:
"appends `fn` wrapped in a promise-fulfiller to the task FIFO under the mutex and
calls `notifier.Notify()`". -/
def Execute (t : Task) (s : EventLoop R) : Future × EventLoop R :=
  (Future.posted t, { s with tasks_ := s.tasks_ ++ [t], notify_count := s.notify_count + 1 })

/-- The function `EventLoop::Cancel` (lines 63-82). -/
def Cancel (env : Env R) (inThisLoop : Bool) (id : TimerId) (s : EventLoop R) :
    Future × EventLoop R :=
  if inThisLoop then
    match s.reactor_ with
    | some r =>
      let res := env.reactorCancel r id
      (Future.ready res.1, { s with reactor_ := some res.2 })
    | none => (Future.ready false, s)
  else
    Execute (Task.cancelTimer id) s

/-- Modelled from the spec: the boolean carried by a future of `Cancel` (the promise
is fulfilled by `Execute`, which is not among the translated files): the value it
was made ready with, or for a posted closure "the eventual boolean", the result of
the closure when the loop runs it on the state `s`. -/
def futureValue (env : Env R) (f : Future) (s : EventLoop R) : Option Bool :=
  match f with
  | Future.ready v => some v
  | Future.posted (Task.cancelTimer id) => some (cancelClosure env id s).1
  | Future.posted (Task.user _) => none

/-! ## Run -/

/-- What `Run` itself does, in order: it runs a task, calls `Poll`, or hands an
object to `reactor_->Unregister`. -/
inductive Event where
  | ranTask (t : Task)
  | polled
  | reactorUnregistered (o : Nat)
deriving DecidableEq, Repr

/-- The loop `for (const auto& f : funcs) f();` (line 42). -/
def runFuncs (env : Env R) : List Task → EventLoop R → EventLoop R × List Event
  | [], s => (s, [])
  | f :: rest, s =>
    let r := runFuncs env rest (runTask env f s)
    (r.1, Event.ranTask f :: r.2)

/-- One iteration of the body of `while (running_)` (lines 37-47), in tick `i`. -/
def tick (env : Env R) (i : Nat) (s : EventLoop R) : Option (EventLoop R × List Event) :=
  let afterTasks :=
    if env.try_lock i then runFuncs env s.tasks_ { s with tasks_ := [] } else (s, [])
  match afterTasks.1.reactor_ with
  | none => none
  | some _ => some (env.Poll i afterTasks.1, afterTasks.2 ++ [Event.polled])

/-- The loop `while (running_) { ... }` (lines 36-48), with a bound on the number
of times the condition is tested. -/
def runLoop (env : Env R) : Nat → Nat → EventLoop R → Option (EventLoop R × List Event)
  | 0, _, _ => none
  | n + 1, i, s =>
    if s.running_ then
      match tick env i s with
      | none => none
      | some (s1, tr1) =>
        match runLoop env n (i + 1) s1 with
        | none => none
        | some (s2, tr2) => some (s2, tr1 ++ tr2)
    else some (s, [])

/-- The key that follows `k` in the map: the position reached by `++it`. -/
def mapNext : ObjectMap → Int → Option Int
  | [], _ => none
  | (k', _) :: rest, k =>
    if k' = k then rest.head?.map Prod.fst else mapNext rest k

/-- The loop `for (auto& kv : objects_) Unregister(kv.second);` (lines 164-166).
The iterator is the key it points to, `none` for `end()`. When the body erases the
element under the iterator, the iterator is invalid and advancing it has no
defined result. -/
def resetLoop (env : Env R) (inThisLoop : Bool) :
    Nat → Option Int → EventLoop R → Option (EventLoop R)
  | _, none, s => some s
  | 0, some _, _ => none
  | n + 1, some k, s =>
    match mapFind s.objects_ k with
    | none => none
    | some o =>
      match Unregister env inThisLoop (some o) s with
      | none => none
      | some s1 =>
        if mapCount s1.objects_ k = 0 then none
        else resetLoop env inThisLoop n (mapNext s1.objects_ k) s1

/-- The function `EventLoop::Reset` (lines 163-176). -/
def Reset (env : Env R) (inThisLoop : Bool) (s : EventLoop R) : Option (EventLoop R) :=
  match resetLoop env inThisLoop s.objects_.length (s.objects_.head?.map Prod.fst) s with
  | none => none
  | some s1 =>
    some { s1 with objects_ := []
                   tasks_ := []
                   reactor_ := some env.newReactor
                   notifier_ := s1.next_object
                   unique_id_ := SetUniqueId s1.unique_id_ s1.next_object (-1)
                   notify_count := 0
                   next_object := s1.next_object + 1 }

/-! ## A reactor after the specification -/

/-- Modelled from the spec: the state of the reactor backend of section 4.A (the
class `internal::LibeventReactor`, whose source is not among the translated
files): the file descriptors registered with their interest mask, and the ids of
the pending timers. -/
structure LibeventReactor where
  /-- Registered file descriptors with their interest mask. -/
  fds : List (Int × Int)
  /-- Ids of the pending timers. -/
  timers : List TimerId
deriving DecidableEq, Repr

/-- Modelled from the spec: reactor `Register(obj, mask)`, "adds fd with the given
interest; fails if the fd is invalid or already registered". -/
def LibeventReactor.Register (r : LibeventReactor) (fd : Int) (mask : Int) :
    Bool × LibeventReactor :=
  if fd < 0 ∨ fd ∈ r.fds.map Prod.fst then (false, r)
  else (true, { r with fds := r.fds ++ [(fd, mask)] })

/-- Modelled from the spec: reactor `Modify(obj, mask)`, "changes interest; fails
if not registered". -/
def LibeventReactor.Modify (r : LibeventReactor) (fd : Int) (mask : Int) :
    Bool × LibeventReactor :=
  if fd ∈ r.fds.map Prod.fst then
    (true, { r with fds := r.fds.map (fun p => if p.1 = fd then (fd, mask) else p) })
  else (false, r)

/-- Modelled from the spec: reactor `Unregister(obj)`, "removes fd; must be a no-op
if not registered". -/
def LibeventReactor.Unregister (r : LibeventReactor) (fd : Int) : LibeventReactor :=
  { r with fds := r.fds.filter (fun p => decide (p.1 ≠ fd)) }

/-- Modelled from the spec: reactor `Cancel(id)`, which "removes it idempotently
and returns whether a pending timer was actually removed". -/
def LibeventReactor.Cancel (r : LibeventReactor) (id : TimerId) : Bool × LibeventReactor :=
  if id ∈ r.timers then (true, { r with timers := r.timers.filter (fun t => decide (t ≠ id)) })
  else (false, r)

/-- Modelled from the spec: an environment whose reactor is the one of section 4.A.
`Fd` gives the file descriptor of each object; the other three arguments are the
parts of the environment that the specification leaves open. -/
def specEnv (Fd : Nat → Int) (lock : Nat → Bool)
    (user : Nat → EventLoop LibeventReactor → EventLoop LibeventReactor)
    (poll : Nat → EventLoop LibeventReactor → EventLoop LibeventReactor) :
    Env LibeventReactor :=
  { newReactor := { fds := [], timers := [] }
    reactorRegister := fun r o _ mask => r.Register (Fd o) mask
    reactorModify := fun r o _ mask => r.Modify (Fd o) mask
    reactorUnregister := fun r o _ => r.Unregister (Fd o)
    reactorCancel := fun r id => r.Cancel id
    try_lock := lock
    runUser := user
    Poll := poll }

/-! ## Invariant, reachable states and the loops used as examples -/

/-- The state left by `Register` once the id `id` was allocated and the generator
stands at `gen`, according to the answer `ok` of the reactor, which becomes `r'`. -/
def registered (s : EventLoop R) (o : Nat) (id gen : Int) (ok : Bool) (r' : R) :
    EventLoop R :=
  if ok then
    { s with obj_id_generator_ := gen, unique_id_ := SetUniqueId s.unique_id_ o id,
             reactor_ := some r', objects_ := mapInsert s.objects_ id o }
  else
    { s with obj_id_generator_ := gen, unique_id_ := SetUniqueId s.unique_id_ o id,
             reactor_ := some r' }

/-- The invariant of the object map: every entry `(k, o)` has `o.unique_id = k`
and `k ≥ 0`, and no object is entered under two different keys. -/
def MapInv (s : EventLoop R) : Prop :=
  (∀ p ∈ s.objects_, GetUniqueId s.unique_id_ p.2 = p.1 ∧ 0 ≤ p.1) ∧
  (∀ p ∈ s.objects_, ∀ q ∈ s.objects_, p.2 = q.2 → p.1 = q.1)

instance (s : EventLoop R) : Decidable (MapInv s) := by
  unfold MapInv
  infer_instance

/-- The loop states reached from a freshly constructed `EventLoop` by calls of
`Register`, `Modify` and `Unregister` that pass their assertions and return. -/
inductive Reachable (env : Env R) : EventLoop R → Prop where
  | fresh (running : Bool) (gen : Int) (ids : IdStore) (next : Nat) :
      Reachable env (newEventLoop env running gen ids next)
  | register (s s' : EventLoop R) (inThisLoop : Bool) (obj : Option Nat) (events : Int)
      (ok : Bool) : Reachable env s →
      Register env inThisLoop obj events s = some (ok, s') → Reachable env s'
  | modify (s s' : EventLoop R) (inThisLoop : Bool) (obj : Option Nat) (events : Int)
      (ok : Bool) : Reachable env s →
      Modify env inThisLoop obj events s = some (ok, s') → Reachable env s'
  | unregister (s s' : EventLoop R) (inThisLoop : Bool) (obj : Option Nat) :
      Reachable env s →
      Unregister env inThisLoop obj s = some s' → Reachable env s'

/-- An environment after the specification in which the file descriptor of object
`o` is `o`, the task mutex is always free, closures of collaborators do nothing and
`Stop` is called from a foreign thread during the second `Poll`. -/
def demoEnv : Env LibeventReactor :=
  specEnv (fun o => (o : Int)) (fun _ => true) (fun _ s => s)
    (fun i s => if i = 1 then Stop s else s)

/-- An environment after the specification in which every object has the invalid
file descriptor `-1`, so that the reactor rejects every registration. -/
def rejectEnv : Env LibeventReactor :=
  specEnv (fun _ => -1) (fun _ => true) (fun _ s => s) (fun _ s => s)

/-- A freshly constructed loop: generator at zero, no object has an id yet, the
notifier is object `0`. -/
def freshLoop : EventLoop LibeventReactor := newEventLoop demoEnv true 0 [] 0

/-- The loop `freshLoop` after object `7` was registered for reading. -/
def loopWith7 : EventLoop LibeventReactor :=
  { reactor_ := some { fds := [(7, 1)], timers := [] }
    notifier_ := 0
    objects_ := [(1, 7)]
    tasks_ := []
    running_ := true
    obj_id_generator_ := 1
    unique_id_ := [(7, 1), (0, -1)]
    notify_count := 0
    next_object := 1 }

/-- The loop `loopWith7` after object `8` was registered as well. -/
def loopWith78 : EventLoop LibeventReactor :=
  { reactor_ := some { fds := [(7, 1), (8, 1)], timers := [] }
    notifier_ := 0
    objects_ := [(1, 7), (2, 8)]
    tasks_ := []
    running_ := true
    obj_id_generator_ := 2
    unique_id_ := [(8, 2), (7, 1), (0, -1)]
    notify_count := 0
    next_object := 1 }

/-- A loop whose generator stands at `INT_MAX` while id `1` is taken by object `7`. -/
def loopAtMax : EventLoop LibeventReactor :=
  { loopWith7 with obj_id_generator_ := INT_MAX }

/-- A freshly constructed loop whose reactor rejects every object. -/
def rejectLoop : EventLoop LibeventReactor := newEventLoop rejectEnv true 0 [] 0

/-- The loop `rejectLoop` after the reactor rejected object `7`. -/
def rejectedLoop : EventLoop LibeventReactor :=
  { reactor_ := some { fds := [], timers := [] }
    notifier_ := 0
    objects_ := []
    tasks_ := []
    running_ := true
    obj_id_generator_ := 1
    unique_id_ := [(7, 1), (0, -1)]
    notify_count := 0
    next_object := 1 }

/-- Whether the timer `id` is pending in the reactor of the loop. -/
def timerPending (s : EventLoop LibeventReactor) (id : TimerId) : Bool :=
  match s.reactor_ with
  | some r => decide (id ∈ r.timers)
  | none => false

/-- An environment after the specification in which the file descriptor of object
`o` is `o`, the task mutex is always free, `Poll` changes nothing, and while the
closure `n` of a collaborator runs, a follow-up closure `n + 10` is appended to the
task FIFO. -/
def postingEnv : Env LibeventReactor :=
  specEnv (fun o => (o : Int)) (fun _ => true)
    (fun n s => { s with tasks_ := s.tasks_ ++ [Task.user (n + 10)] }) (fun _ s => s)

/-- The loop `loopWith7` with timer `5` pending and three queued tasks. -/
def loopQueued : EventLoop LibeventReactor :=
  { loopWith7 with reactor_ := some { fds := [(7, 1)], timers := [5] }
                   tasks_ := [Task.user 1, Task.cancelTimer 5, Task.user 2] }

/-- The loop `loopQueued` after one tick in `postingEnv`. -/
def loopTicked : EventLoop LibeventReactor :=
  { loopWith7 with tasks_ := [Task.user 11, Task.user 12] }

end pikiwidb

/-! ## The write queue of the replication server thread -/

namespace PikaReplServerThread

/-- One byte of a message. -/
abbrev Byte := Fin 256

/-- The member `write_buf_` (`std::map<int, std::string>`): pairs of a file
descriptor and its pending bytes, one entry for each file descriptor, in the order
in which the entries were created (the map is never traversed here). -/
abbrev WriteBuf := List (Int × List Byte)

/-- Lookup of the buffer of a file descriptor: `write_buf_.find(fd)`. -/
def bufFind : WriteBuf → Int → Option (List Byte)
  | [], _ => none
  | (k, b) :: rest, fd => if k = fd then some b else bufFind rest fd

/-- The statement `write_buf_[fd].append(msg)`: the entry of `fd` is created empty
when it is missing, then `msg` is appended to it. -/
def bufAppend : WriteBuf → Int → List Byte → WriteBuf
  | [], fd, msg => [(fd, [] ++ msg)]
  | (k, b) :: rest, fd, msg =>
    if k = fd then (k, b ++ msg) :: rest
    else (k, b) :: bufAppend rest fd msg

end PikaReplServerThread

/-- The members of `PikaReplServerThread` that `Write` touches: the write queue
`write_buf_` (line 47) and the notifications posted to the thread's loop. -/
structure PikaReplServerThread where
  /-- The member `write_buf_`. -/
  write_buf_ : PikaReplServerThread.WriteBuf
  /-- The notifications posted by `NotifyWrite(ip_port, fd)`, oldest first. -/
  notified : List (String × Int)
deriving DecidableEq, Repr

namespace PikaReplServerThread

/-- The pending bytes of a file descriptor; none when it has no entry. -/
def pendingBytes (t : PikaReplServerThread) (fd : Int) : List Byte :=
  match bufFind t.write_buf_ fd with
  | some b => b
  | none => []

/-- Modelled from the spec: `PikaReplServerThread::Write(msg, ip_port, fd)`, declared
on line 18 of the header and defined in a file that is not among the translated
ones. Section 4.G: "1. Lock `write_buf_mu`; append `bytes` to `write_buf[fd]`;
unlock. 2. ... post a task that on the loop thread will flush `write_buf[fd]`". -/
def Write (msg : List Byte) (ip_port : String) (fd : Int) (t : PikaReplServerThread) :
    PikaReplServerThread :=
  { write_buf_ := bufAppend t.write_buf_ fd msg
    notified := t.notified ++ [(ip_port, fd)] }

/-- A replication thread with bytes pending on file descriptors `4` and `9`. -/
def demoThread : PikaReplServerThread :=
  { write_buf_ := [(4, [1, 2]), (9, [7])], notified := [] }

end PikaReplServerThread

/-! # Theorems -/

namespace pikiwidb

variable {R : Type}

/-! ## Facts about the 32-bit increment and the allocation loop -/

theorem wrap32_succ_of_lt (g : Int) (h0 : 0 ≤ g) (h1 : g < INT_MAX) :
    wrap32 (g + 1) = g + 1 := by
  unfold wrap32 INT_MAX at *
  omega

theorem wrap32_succ_max : wrap32 (INT_MAX + 1) = -2147483648 := by
  decide

theorem allocId_found (n : Nat) (g : Int) (objs : ObjectMap) (h0 : 0 ≤ g)
    (h1 : g < INT_MAX) (hfree : mapCount objs (g + 1) = 0) :
    allocId (n + 1) g objs = some (g + 1, g + 1) := by
  have hw := wrap32_succ_of_lt g h0 h1
  have hneg : ¬ (g + 1 < 0) := by omega
  simp [allocId, hw, hneg, hfree]

theorem allocId_busy (n : Nat) (g : Int) (objs : ObjectMap) (h0 : 0 ≤ g)
    (h1 : g < INT_MAX) (hbusy : mapCount objs (g + 1) ≠ 0) :
    allocId (n + 1) g objs = allocId n (g + 1) objs := by
  have hw := wrap32_succ_of_lt g h0 h1
  have hneg : ¬ (g + 1 < 0) := by omega
  simp [allocId, hw, hneg, hbusy]

theorem allocId_overflow (n : Nat) (objs : ObjectMap) :
    allocId (n + 1) INT_MAX objs = allocId n 0 objs := by
  simp [allocId, wrap32_succ_max]

/-- Probing upwards from `g` reaches a free id no later than a free id `k` above `g`. -/
theorem allocId_upward (objs : ObjectMap) (k : Int) (hk : k ≤ INT_MAX)
    (hfree : mapCount objs k = 0) :
    ∀ (n : Nat) (g : Int), 0 ≤ g → g < k → (k - g).toNat ≤ n →
      ∃ id, allocId n g objs = some (id, id) ∧ g < id ∧ id ≤ k ∧ mapCount objs id = 0 := by
  intro n
  induction n with
  | zero => intro g _ hgk hn; omega
  | succ n ih =>
    intro g h0 hgk hn
    by_cases hc : mapCount objs (g + 1) = 0
    · refine ⟨g + 1, allocId_found n g objs h0 (by omega) hc, by omega, by omega, hc⟩
    · have hne : g + 1 ≠ k := fun h => hc (h ▸ hfree)
      obtain ⟨id, h1, h2, h3, h4⟩ := ih (g + 1) (by omega) (by omega) (by omega)
      refine ⟨id, ?_, by omega, h3, h4⟩
      rw [allocId_busy n g objs h0 (by omega) hc]
      exact h1

/-- Probing from `g` either finds a free id below the overflow, or reaches the
overflow and goes on from generator value zero. -/
theorem allocId_to_overflow (objs : ObjectMap) :
    ∀ (d n : Nat) (g : Int), 0 ≤ g → g ≤ INT_MAX → (INT_MAX - g).toNat = d →
      allocId (n + d + 1) g objs = allocId n 0 objs ∨
      ∃ id, allocId (n + d + 1) g objs = some (id, id) ∧ 0 < id ∧ id ≤ INT_MAX ∧
        mapCount objs id = 0 := by
  intro d
  induction d with
  | zero =>
    intro n g h0 h1 hd
    have hg : g = INT_MAX := by omega
    subst hg
    exact Or.inl (allocId_overflow n objs)
  | succ d ih =>
    intro n g h0 h1 hd
    have hlt : g < INT_MAX := by omega
    by_cases hc : mapCount objs (g + 1) = 0
    · exact Or.inr ⟨g + 1, allocId_found _ g objs h0 hlt hc, by omega, by omega, hc⟩
    · have hstep : allocId (n + (d + 1) + 1) g objs = allocId (n + d + 1) (g + 1) objs :=
        allocId_busy (n + d + 1) g objs h0 hlt hc
      rw [hstep]
      exact ih n (g + 1) (by omega) (by omega) (by omega)

/-- With a free positive id and a generator in `[0, INT_MAX]` the allocation loop
ends within `allocFuel` iterations, on a free positive id. -/
theorem allocId_total (gen : Int) (objs : ObjectMap) (hlo : 0 ≤ gen) (hhi : gen ≤ INT_MAX)
    (hfree : ∃ k, 0 < k ∧ k ≤ INT_MAX ∧ mapCount objs k = 0) :
    ∃ id, allocId allocFuel gen objs = some (id, id) ∧ 0 < id ∧ id ≤ INT_MAX ∧
      mapCount objs id = 0 := by
  obtain ⟨k, hk0, hk1, hkf⟩ := hfree
  have hsplit : allocFuel
      = (allocFuel - (INT_MAX - gen).toNat - 1) + (INT_MAX - gen).toNat + 1 := by
    unfold allocFuel INT_MAX at *
    omega
  rcases allocId_to_overflow objs (INT_MAX - gen).toNat
      (allocFuel - (INT_MAX - gen).toNat - 1) gen hlo hhi rfl with h | h
  · rw [← hsplit] at h
    obtain ⟨id, h1, h2, h3, h4⟩ := allocId_upward objs k hk1 hkf
      (allocFuel - (INT_MAX - gen).toNat - 1) 0 (le_refl 0) hk0
      (by unfold allocFuel INT_MAX at *; omega)
    exact ⟨id, by rw [h]; exact h1, h2, by omega, h4⟩
  · rw [← hsplit] at h
    exact h

/-- Whatever the generator, an id returned by the allocation loop is non-negative
and is not a key of the map. -/
theorem allocId_sound (objs : ObjectMap) :
    ∀ (n : Nat) (g id g' : Int), allocId n g objs = some (id, g') →
      0 ≤ id ∧ mapCount objs id = 0 := by
  intro n
  induction n with
  | zero => intro g id g' h; simp [allocId] at h
  | succ n ih =>
    intro g id g' h
    unfold allocId at h
    by_cases hc : wrap32 (g + 1) < 0 ∨ mapCount objs (wrap32 (g + 1)) ≠ 0
    · simp only [hc, if_true] at h
      exact ih _ id g' h
    · simp only [hc, if_false] at h
      simp only [Option.some.injEq, Prod.mk.injEq] at h
      obtain ⟨h1, _⟩ := h
      subst h1
      push_neg at hc
      exact ⟨by omega, hc.2⟩

/-- From a generator in `[0, INT_MAX]` the allocation loop can only return a
positive id, and it leaves the generator at that id, hence again in `[0, INT_MAX]`:
starting at zero (line 16) the generator never leaves this range. -/
theorem allocId_range (objs : ObjectMap) :
    ∀ (n : Nat) (g id g' : Int), 0 ≤ g → g ≤ INT_MAX → allocId n g objs = some (id, g') →
      0 < id ∧ id ≤ INT_MAX ∧ g' = id := by
  intro n
  induction n with
  | zero => intro g id g' _ _ h; simp [allocId] at h
  | succ n ih =>
    intro g id g' h0 h1 h
    by_cases hmax : g = INT_MAX
    · subst hmax
      rw [allocId_overflow] at h
      exact ih 0 id g' (le_refl 0) (by decide) h
    · have hlt : g < INT_MAX := by omega
      by_cases hc : mapCount objs (g + 1) = 0
      · rw [allocId_found n g objs h0 hlt hc] at h
        simp only [Option.some.injEq, Prod.mk.injEq] at h
        omega
      · rw [allocId_busy n g objs h0 hlt hc] at h
        exact ih (g + 1) id g' (by omega) (by omega) h

/-- The values of the generator are exactly the integers of `[0, INT_MAX]`. -/
theorem generator_values (g : Int) : GeneratorValue g ↔ 0 ≤ g ∧ g ≤ INT_MAX := by
  constructor
  · intro h
    induction h with
    | init => exact ⟨le_refl 0, by decide⟩
    | alloc n g id g' objs _ ha ih =>
      have hr := allocId_range objs n g id g' ih.1 ih.2 ha
      omega
  · intro h
    have key : ∀ (m : Nat) (x : Int), x = (m : Int) → x ≤ INT_MAX → GeneratorValue x := by
      intro m
      induction m with
      | zero =>
        intro x hx _
        have h0 : x = 0 := by simpa using hx
        rw [h0]
        exact GeneratorValue.init
      | succ m ih =>
        intro x hx hmax
        have hprev : GeneratorValue (x - 1) := ih (x - 1) (by push_cast at hx; omega) (by omega)
        have hstep : allocId 1 (x - 1) [] = some (x - 1 + 1, x - 1 + 1) :=
          allocId_found 0 (x - 1) [] (by push_cast at hx; omega) (by omega) rfl
        have hx' : x - 1 + 1 = x := by omega
        rw [hx'] at hstep
        exact GeneratorValue.alloc 1 (x - 1) x x [] hprev hstep
    exact key g.toNat g (by omega) h.2

/-! ## Facts about the object map and the id store -/

theorem GetUniqueId_SetUniqueId (h : IdStore) (o o' : Nat) (v : Int) :
    GetUniqueId (SetUniqueId h o v) o' = if o = o' then v else GetUniqueId h o' := by
  simp [SetUniqueId, GetUniqueId]

theorem mem_insertSorted (m : ObjectMap) (k : Int) (o : Nat) (p : Int × Nat) :
    p ∈ insertSorted m k o ↔ p ∈ m ∨ p = (k, o) := by
  induction m with
  | nil => simp [insertSorted]
  | cons q rest ih =>
    obtain ⟨k', o'⟩ := q
    unfold insertSorted
    split_ifs with h1
    · simp only [List.mem_cons]
      tauto
    · simp only [List.mem_cons, ih]
      tauto

theorem mem_mapInsert (m : ObjectMap) (k : Int) (o : Nat) (p : Int × Nat)
    (hp : p ∈ mapInsert m k o) : p ∈ m ∨ p = (k, o) := by
  unfold mapInsert at hp
  split_ifs at hp with h
  · exact Or.inl hp
  · exact (mem_insertSorted m k o p).mp hp

theorem mem_mapErase (m : ObjectMap) (k : Int) (p : Int × Nat) :
    p ∈ mapErase m k ↔ p ∈ m ∧ p.1 ≠ k := by
  simp [mapErase, List.mem_filter]

theorem mapErase_cons_self (rest : ObjectMap) (k : Int) (o : Nat) :
    mapErase ((k, o) :: rest) k = mapErase rest k := by
  simp [mapErase, List.filter_cons]

theorem mapErase_cons_ne (rest : ObjectMap) (k k' : Int) (o : Nat) (h : k' ≠ k) :
    mapErase ((k', o) :: rest) k = (k', o) :: mapErase rest k := by
  simp [mapErase, List.filter_cons, h]

theorem mapFind_cons_self (rest : ObjectMap) (k : Int) (o : Nat) :
    mapFind ((k, o) :: rest) k = some o := by
  simp [mapFind]

theorem mapFind_cons_ne (rest : ObjectMap) (k k' : Int) (o : Nat) (h : k' ≠ k) :
    mapFind ((k', o) :: rest) k = mapFind rest k := by
  simp [mapFind, h]

theorem mapFind_mapErase_self (m : ObjectMap) (k : Int) : mapFind (mapErase m k) k = none := by
  induction m with
  | nil => rfl
  | cons q rest ih =>
    obtain ⟨k', o'⟩ := q
    by_cases h : k' = k
    · subst h
      rw [mapErase_cons_self]; exact ih
    · rw [mapErase_cons_ne _ _ _ _ h, mapFind_cons_ne _ _ _ _ h]; exact ih

theorem mapFind_mapErase_ne (m : ObjectMap) (k k2 : Int) (hne : k2 ≠ k) :
    mapFind (mapErase m k) k2 = mapFind m k2 := by
  induction m with
  | nil => rfl
  | cons q rest ih =>
    obtain ⟨k', o'⟩ := q
    by_cases h : k' = k
    · subst h
      rw [mapErase_cons_self, mapFind_cons_ne _ _ _ _ (Ne.symm hne)]; exact ih
    · rw [mapErase_cons_ne _ _ _ _ h]
      by_cases h3 : k' = k2
      · subst h3
        rw [mapFind_cons_self, mapFind_cons_self]
      · rw [mapFind_cons_ne _ _ _ _ h3, mapFind_cons_ne _ _ _ _ h3]; exact ih

theorem mapCount_mapErase_self (m : ObjectMap) (k : Int) : mapCount (mapErase m k) k = 0 := by
  simp [mapCount, mapFind_mapErase_self]

theorem mapFind_mem (m : ObjectMap) (k : Int) (o : Nat) (h : mapFind m k = some o) :
    (k, o) ∈ m := by
  induction m with
  | nil => simp [mapFind] at h
  | cons q rest ih =>
    obtain ⟨k', o'⟩ := q
    unfold mapFind at h
    split_ifs at h with h1
    · simp only [Option.some.injEq] at h
      subst h1 h
      exact List.mem_cons_self _ _
    · exact List.mem_cons_of_mem _ (ih h)

theorem mapCount_of_mem (m : ObjectMap) (k : Int) (o : Nat) (h : (k, o) ∈ m) :
    mapCount m k = 1 := by
  induction m with
  | nil => simp at h
  | cons q rest ih =>
    obtain ⟨k', o'⟩ := q
    by_cases h1 : k' = k
    · simp [mapCount, mapFind, h1]
    · rcases List.mem_cons.mp h with h2 | h2
      · simp only [Prod.mk.injEq] at h2
        exact absurd h2.1.symm h1
      · have := ih h2
        simpa [mapCount, mapFind, h1] using this

theorem Register_of_alloc (env : Env R) (s : EventLoop R) (o : Nat) (events : Int) (r : R)
    (id gen : Int) (hr : s.reactor_ = some r) (hid : GetUniqueId s.unique_id_ o = -1)
    (ha : allocId allocFuel s.obj_id_generator_ s.objects_ = some (id, gen)) :
    Register env true (some o) events s =
      some ((env.reactorRegister r o id events).1,
            registered s o id gen (env.reactorRegister r o id events).1
              (env.reactorRegister r o id events).2) := by
  by_cases hok : (env.reactorRegister r o id events).1 = true
  · simp [Register, hid, hr, ha, hok, registered, GetUniqueId_SetUniqueId]
  · simp [Register, hid, hr, ha, hok, registered]

/-! ## The invariant of the object map -/

theorem MapInv_of_entries (s : EventLoop R)
    (h : ∀ p ∈ s.objects_, GetUniqueId s.unique_id_ p.2 = p.1 ∧ 0 ≤ p.1) : MapInv s := by
  refine ⟨h, ?_⟩
  intro p hp q hq hpq
  rw [← (h p hp).1, ← (h q hq).1, hpq]

theorem Register_preserves (env : Env R) (inThisLoop : Bool) (obj : Option Nat)
    (events : Int) (s s' : EventLoop R) (ok : Bool) (hinv : MapInv s)
    (h : Register env inThisLoop obj events s = some (ok, s')) : MapInv s' := by
  unfold Register at h
  cases obj with
  | none =>
    simp only [Option.some.injEq, Prod.mk.injEq] at h
    rw [← h.2]; exact hinv
  | some o =>
    simp only at h
    split_ifs at h with h1 h2
    cases hr : s.reactor_ with
    | none =>
      rw [hr] at h
      simp only [Option.some.injEq, Prod.mk.injEq] at h
      rw [← h.2]; exact hinv
    | some r =>
      rw [hr] at h
      simp only at h
      cases ha : allocId allocFuel s.obj_id_generator_ s.objects_ with
      | none => rw [ha] at h; simp at h
      | some idg =>
        obtain ⟨id, gen⟩ := idg
        rw [ha] at h
        simp only at h
        have hsound := allocId_sound s.objects_ allocFuel _ id gen ha
        have huid : GetUniqueId s.unique_id_ o = -1 := by
          by_contra hne; exact h2 hne
        have hold : ∀ p ∈ s.objects_,
            GetUniqueId (SetUniqueId s.unique_id_ o id) p.2 = p.1 ∧ 0 ≤ p.1 := by
          intro p hp
          have hp' := hinv.1 p hp
          have hne : o ≠ p.2 := by
            intro e
            rw [← e, huid] at hp'
            omega
          rw [GetUniqueId_SetUniqueId, if_neg hne]
          exact hp'
        split_ifs at h with h3
        · simp only [Option.some.injEq, Prod.mk.injEq] at h
          rw [← h.2]
          apply MapInv_of_entries
          intro p hp
          simp only at hp ⊢
          rw [GetUniqueId_SetUniqueId, if_pos rfl] at hp
          rcases mem_mapInsert _ _ _ _ hp with hp1 | hp1
          · exact hold p hp1
          · subst hp1
            simp only [GetUniqueId_SetUniqueId, if_pos]
            exact ⟨trivial, hsound.1⟩
        · simp only [Option.some.injEq, Prod.mk.injEq] at h
          rw [← h.2]
          apply MapInv_of_entries
          intro p hp
          exact hold p hp

theorem Modify_preserves (env : Env R) (inThisLoop : Bool) (obj : Option Nat)
    (events : Int) (s s' : EventLoop R) (ok : Bool) (hinv : MapInv s)
    (h : Modify env inThisLoop obj events s = some (ok, s')) : MapInv s' := by
  unfold Modify at h
  cases obj with
  | none =>
    simp only [Option.some.injEq, Prod.mk.injEq] at h
    rw [← h.2]; exact hinv
  | some o =>
    simp only at h
    split_ifs at h with h1 h2 h3
    cases hr : s.reactor_ with
    | none =>
      rw [hr] at h
      simp only [Option.some.injEq, Prod.mk.injEq] at h
      rw [← h.2]; exact hinv
    | some r =>
      rw [hr] at h
      simp only [Option.some.injEq, Prod.mk.injEq] at h
      rw [← h.2]; exact hinv

theorem Unregister_preserves (env : Env R) (inThisLoop : Bool) (obj : Option Nat)
    (s s' : EventLoop R) (hinv : MapInv s)
    (h : Unregister env inThisLoop obj s = some s') : MapInv s' := by
  unfold Unregister at h
  cases obj with
  | none =>
    simp only [Option.some.injEq] at h
    rw [← h]; exact hinv
  | some o =>
    simp only at h
    split_ifs at h with h1 h2 h3
    cases hr : s.reactor_ with
    | none =>
      rw [hr] at h
      simp only [Option.some.injEq] at h
      rw [← h]; exact hinv
    | some r =>
      rw [hr] at h
      simp only [Option.some.injEq] at h
      rw [← h]
      apply MapInv_of_entries
      intro p hp
      exact hinv.1 p ((mem_mapErase _ _ _).mp hp).1

theorem Register_cases (env : Env R) (b : Bool) (obj : Option Nat) (events : Int)
    (s s1 : EventLoop R) (ok : Bool) (h : Register env b obj events s = some (ok, s1)) :
    (ok = false ∧ s1 = s ∧ (obj = none ∨ s.reactor_ = none)) ∨
    (∃ o r id gen, obj = some o ∧ b = true ∧ GetUniqueId s.unique_id_ o = -1 ∧
      s.reactor_ = some r ∧
      allocId allocFuel s.obj_id_generator_ s.objects_ = some (id, gen) ∧
      ok = (env.reactorRegister r o id events).1 ∧
      s1 = registered s o id gen ok (env.reactorRegister r o id events).2) := by
  cases obj with
  | none =>
    simp only [Register, Option.some.injEq, Prod.mk.injEq] at h
    exact Or.inl ⟨h.1.symm, h.2.symm, Or.inl rfl⟩
  | some o =>
    have hb : b = true := by
      cases b with
      | true => rfl
      | false => simp [Register] at h
    subst hb
    have hid : GetUniqueId s.unique_id_ o = -1 := by
      by_contra hne
      simp [Register, hne] at h
    cases hr : s.reactor_ with
    | none =>
      simp only [Register, hid, hr] at h
      simp at h
      exact Or.inl ⟨h.1, h.2.symm, Or.inr rfl⟩
    | some r =>
      cases ha : allocId allocFuel s.obj_id_generator_ s.objects_ with
      | none => simp [Register, hid, hr, ha] at h
      | some idg =>
        obtain ⟨id, gen⟩ := idg
        rw [Register_of_alloc env s o events r id gen hr hid ha] at h
        simp only [Option.some.injEq, Prod.mk.injEq] at h
        refine Or.inr ⟨o, r, id, gen, rfl, rfl, hid, rfl, rfl, h.1.symm, ?_⟩
        rw [← h.1]; exact h.2.symm

/-- Calls of `Register` keep the generator in `[0, INT_MAX]`. -/
theorem Register_generator_range (env : Env R) (b : Bool) (obj : Option Nat) (events : Int)
    (s s1 : EventLoop R) (ok : Bool) (hlo : 0 ≤ s.obj_id_generator_)
    (hhi : s.obj_id_generator_ ≤ INT_MAX)
    (h : Register env b obj events s = some (ok, s1)) :
    0 ≤ s1.obj_id_generator_ ∧ s1.obj_id_generator_ ≤ INT_MAX := by
  rcases Register_cases env b obj events s s1 ok h with
    ⟨_, h2, _⟩ | ⟨o, r, id, gen, _, _, _, _, h5, _, h7⟩
  · rw [h2]; exact ⟨hlo, hhi⟩
  · have hr := allocId_range s.objects_ allocFuel _ id gen hlo hhi h5
    have hg : s1.obj_id_generator_ = gen := by
      rw [h7]; cases ok <;> simp [registered]
    rw [hg]
    omega

/-! ## C1: the invariant of the object map -/

/-- C1. In every loop state reachable from a freshly constructed `EventLoop` by
calls of `Register`, `Modify` and `Unregister` that pass their assertions, every
entry `(k, o)` of the object map has `o.unique_id = k` and `k ≥ 0`, and no object
occurs under two different keys. -/
theorem object_map_invariant (env : Env R) (s : EventLoop R) (h : Reachable env s) :
    (∀ k o, (k, o) ∈ s.objects_ → GetUniqueId s.unique_id_ o = k ∧ 0 ≤ k) ∧
    (∀ k1 k2 o, (k1, o) ∈ s.objects_ → (k2, o) ∈ s.objects_ → k1 = k2) := by
  have hinv : MapInv s := by
    induction h with
    | fresh running gen ids next =>
      exact ⟨fun p hp => by simp [newEventLoop] at hp, fun p hp => by simp [newEventLoop] at hp⟩
    | register s s' inThisLoop obj events ok _ hstep ih =>
      exact Register_preserves env inThisLoop obj events s s' ok ih hstep
    | modify s s' inThisLoop obj events ok _ hstep ih =>
      exact Modify_preserves env inThisLoop obj events s s' ok ih hstep
    | unregister s s' inThisLoop obj _ hstep ih =>
      exact Unregister_preserves env inThisLoop obj s s' ih hstep
  exact ⟨fun k o hm => hinv.1 (k, o) hm, fun k1 k2 o h1 h2 => hinv.2 (k1, o) h1 (k2, o) h2 rfl⟩

/-- The loop with objects `7` and `8` registered is reachable from the fresh loop. -/
theorem loopWith78_reachable : Reachable demoEnv loopWith78 :=
  Reachable.register loopWith7 loopWith78 true (some 8) kEventRead true
    (Reachable.register freshLoop loopWith7 true (some 7) kEventRead true
      (Reachable.fresh true 0 [] 0) (by decide))
    (by decide)

/-- C1 at the loop in which objects `7` and `8` are registered under ids `1` and `2`. -/
theorem object_map_invariant_witness :
    Reachable demoEnv loopWith78 ∧
    ((∀ k o, (k, o) ∈ loopWith78.objects_ →
        GetUniqueId loopWith78.unique_id_ o = k ∧ 0 ≤ k) ∧
     (∀ k1 k2 o, (k1, o) ∈ loopWith78.objects_ → (k2, o) ∈ loopWith78.objects_ → k1 = k2)) :=
  ⟨loopWith78_reachable, object_map_invariant demoEnv loopWith78 loopWith78_reachable⟩

/-! ## C2: id allocation -/

/-- C2. For every value of the id generator (`GeneratorValue`: the integers from
zero to `INT_MAX`, by `generator_values`) and every object map with a free positive
id, the allocation loop of `Register` ends, the id it gives the object is strictly
positive and is not a key of the object map, and `Register` returns; at `INT_MAX`
the increment overflows, the generator is reset to zero and the next id probed is
`1`. -/
theorem Register_allocates_free_positive_id (env : Env R) (s : EventLoop R) (o : Nat)
    (events : Int) (r : R) (hr : s.reactor_ = some r)
    (hid : GetUniqueId s.unique_id_ o = -1)
    (hgen : GeneratorValue s.obj_id_generator_)
    (hfree : ∃ k, 0 < k ∧ k ≤ INT_MAX ∧ mapCount s.objects_ k = 0) :
    (∃ id gen, allocId allocFuel s.obj_id_generator_ s.objects_ = some (id, gen) ∧
      0 < id ∧ id ≤ INT_MAX ∧ mapCount s.objects_ id = 0 ∧ GeneratorValue gen ∧
      ∃ ok s', Register env true (some o) events s = some (ok, s') ∧
        GetUniqueId s'.unique_id_ o = id ∧ s'.obj_id_generator_ = gen) ∧
    (∀ n, allocId (n + 1) INT_MAX s.objects_ = allocId n 0 s.objects_) ∧
    (∀ n, allocId (n + 1) 0 s.objects_ =
      if mapCount s.objects_ 1 ≠ 0 then allocId n 1 s.objects_ else some (1, 1)) := by
  obtain ⟨hlo, hhi⟩ := (generator_values _).mp hgen
  refine ⟨?_, fun n => allocId_overflow n s.objects_, ?_⟩
  · obtain ⟨id, h1, h2, h3, h4⟩ := allocId_total s.obj_id_generator_ s.objects_ hlo hhi hfree
    refine ⟨id, id, h1, h2, h3, h4, (generator_values _).mpr ⟨by omega, h3⟩, ?_⟩
    refine ⟨_, _, Register_of_alloc env s o events r id id hr hid h1, ?_, ?_⟩
    · by_cases hok : (env.reactorRegister r o id events).1 = true
      · simp [registered, hok, GetUniqueId_SetUniqueId]
      · simp [registered, hok, GetUniqueId_SetUniqueId]
    · by_cases hok : (env.reactorRegister r o id events).1 = true
      · simp [registered, hok]
      · simp [registered, hok]
  · intro n
    by_cases hc : mapCount s.objects_ 1 = 0
    · have := allocId_found n 0 s.objects_ (le_refl 0) (by decide) (by simpa using hc)
      simpa [hc] using this
    · have := allocId_busy n 0 s.objects_ (le_refl 0) (by decide) (by simpa using hc)
      simpa [hc] using this

/-- C2 at a loop whose generator is `INT_MAX` and whose id `1` is taken: object `8`
receives id `2`. -/
theorem Register_allocates_free_positive_id_witness :
    GeneratorValue loopAtMax.obj_id_generator_ ∧
    ((∃ id gen, allocId allocFuel loopAtMax.obj_id_generator_ loopAtMax.objects_
        = some (id, gen) ∧
      0 < id ∧ id ≤ INT_MAX ∧ mapCount loopAtMax.objects_ id = 0 ∧ GeneratorValue gen ∧
      ∃ ok s', Register demoEnv true (some 8) kEventRead loopAtMax = some (ok, s') ∧
        GetUniqueId s'.unique_id_ 8 = id ∧ s'.obj_id_generator_ = gen) ∧
    (∀ n, allocId (n + 1) INT_MAX loopAtMax.objects_ = allocId n 0 loopAtMax.objects_) ∧
    (∀ n, allocId (n + 1) 0 loopAtMax.objects_ =
      if mapCount loopAtMax.objects_ 1 ≠ 0 then allocId n 1 loopAtMax.objects_
      else some (1, 1))) :=
  have hgen : GeneratorValue loopAtMax.obj_id_generator_ :=
    (generator_values _).mpr ⟨by decide, by decide⟩
  ⟨hgen,
   Register_allocates_free_positive_id demoEnv loopAtMax 8 kEventRead
     { fds := [(7, 1)], timers := [] } rfl (by decide) hgen
     ⟨2, by decide, by decide, by decide⟩⟩

/-! ## C10: the frame of Unregister -/

/-- C10. For every loop state with a live reactor and every object `o` entered in
the object map under its id: whenever `Unregister(o)` returns, the object map has
no entry under the id of `o`, every other entry is unchanged, and the id generator,
the task FIFO, the ids of the objects, `running_` and the notifier are unchanged;
and `Unregister(o)` does return when it is called on the loop thread and the id is
not negative, which are its two remaining assertions. `Unregister` of a null handle
changes nothing. -/
theorem Unregister_frame (env : Env R) (s : EventLoop R) (o : Nat) (r : R)
    (hr : s.reactor_ = some r)
    (hmap : mapFind s.objects_ (GetUniqueId s.unique_id_ o) = some o) :
    (∀ b s', Unregister env b (some o) s = some s' →
      mapCount s'.objects_ (GetUniqueId s.unique_id_ o) = 0 ∧
      (∀ k, k ≠ GetUniqueId s.unique_id_ o → mapFind s'.objects_ k = mapFind s.objects_ k) ∧
      (∀ p, p ∈ s'.objects_ ↔ p ∈ s.objects_ ∧ p.1 ≠ GetUniqueId s.unique_id_ o) ∧
      s'.obj_id_generator_ = s.obj_id_generator_ ∧ s'.tasks_ = s.tasks_ ∧
      s'.unique_id_ = s.unique_id_ ∧ s'.running_ = s.running_ ∧
      s'.notifier_ = s.notifier_ ∧
      s'.reactor_ = some (env.reactorUnregister r o (GetUniqueId s.unique_id_ o))) ∧
    (0 ≤ GetUniqueId s.unique_id_ o → ∃ s', Unregister env true (some o) s = some s') ∧
    (∀ b, Unregister env b none s = some s) := by
  have hcount : mapCount s.objects_ (GetUniqueId s.unique_id_ o) = 1 := by
    simp [mapCount, hmap]
  refine ⟨?_, ?_, fun b => rfl⟩
  · intro b s' h
    have hb : b = true := by
      cases b with
      | true => rfl
      | false => simp [Unregister] at h
    subst hb
    have hlt : ¬ GetUniqueId s.unique_id_ o < 0 := by
      intro hneg
      simp [Unregister, hneg] at h
    have hs : s' = { s with
        reactor_ := some (env.reactorUnregister r o (GetUniqueId s.unique_id_ o)),
        objects_ := mapErase s.objects_ (GetUniqueId s.unique_id_ o) } := by
      simp [Unregister, hr, hcount, hlt] at h
      exact h.symm
    subst hs
    exact ⟨mapCount_mapErase_self _ _, fun k hk => mapFind_mapErase_ne _ _ _ hk,
      fun p => mem_mapErase _ _ _, rfl, rfl, rfl, rfl, rfl, rfl⟩
  · intro hnn
    have hlt : ¬ GetUniqueId s.unique_id_ o < 0 := by omega
    exact ⟨{ s with
        reactor_ := some (env.reactorUnregister r o (GetUniqueId s.unique_id_ o)),
        objects_ := mapErase s.objects_ (GetUniqueId s.unique_id_ o) },
      by simp [Unregister, hr, hcount, hlt]⟩

/-- C10 at the loop holding objects `7` and `8`: unregistering `7` leaves `8`. -/
theorem Unregister_frame_witness :
    Unregister demoEnv true (some 7) loopWith78
      = some { loopWith78 with reactor_ := some { fds := [(8, 1)], timers := [] },
                               objects_ := [(2, 8)] } ∧
    mapCount [(2, 8)] (GetUniqueId loopWith78.unique_id_ 7) = 0 ∧
    mapFind [(2, 8)] 2 = mapFind loopWith78.objects_ 2 ∧
    (∃ s', Unregister demoEnv true (some 7) loopWith78 = some s') :=
  have hun : Unregister demoEnv true (some 7) loopWith78
      = some { loopWith78 with reactor_ := some { fds := [(8, 1)], timers := [] },
                               objects_ := [(2, 8)] } := by
    decide
  have hr : loopWith78.reactor_ = some { fds := [(7, 1), (8, 1)], timers := [] } := rfl
  ⟨hun,
   ((Unregister_frame demoEnv loopWith78 7 _ hr (by decide)).1 true _ hun).1,
   ((Unregister_frame demoEnv loopWith78 7 _ hr (by decide)).1 true _ hun).2.1 2 (by decide),
   (Unregister_frame demoEnv loopWith78 7 _ hr (by decide)).2.1 (by decide)⟩

/-! ## C8: a call of Register that returns false -/

/-- C8, counterexample. Object `7` has id `-1`; the reactor rejects it, `Register`
returns false, and the object is left with id `1`, not `-1`; a second call does not
pass the assertion on the id. -/
theorem Register_rejected_keeps_allocated_id :
    GetUniqueId rejectLoop.unique_id_ 7 = -1 ∧
    Register rejectEnv true (some 7) kEventRead rejectLoop = some (false, rejectedLoop) ∧
    GetUniqueId rejectedLoop.unique_id_ 7 = 1 ∧
    ¬ (GetUniqueId rejectedLoop.unique_id_ 7 = -1) ∧
    Register rejectEnv true (some 7) kEventRead rejectedLoop = none := by
  decide

/-- C8, amended. For every object with id `-1` and every loop state, if
`Register(obj, events)` returns false then the object map is unchanged. When the
reactor is null the whole state is unchanged, so the id is still `-1` and the call
may be repeated. When the reactor rejected the object, the object keeps the id that
was allocated for it, which is non-negative and not a key of the map, the generator
has advanced, and a second call does not pass the assertion on the id. -/
theorem Register_false_state (env : Env R) (inThisLoop : Bool) (s s' : EventLoop R) (o : Nat)
    (events : Int) (hid : GetUniqueId s.unique_id_ o = -1)
    (h : Register env inThisLoop (some o) events s = some (false, s')) :
    s'.objects_ = s.objects_ ∧
    (s.reactor_ = none → s' = s ∧ GetUniqueId s'.unique_id_ o = -1 ∧
      Register env inThisLoop (some o) events s' = some (false, s')) ∧
    (∀ r, s.reactor_ = some r →
      0 ≤ GetUniqueId s'.unique_id_ o ∧
      mapCount s.objects_ (GetUniqueId s'.unique_id_ o) = 0 ∧
      allocId allocFuel s.obj_id_generator_ s.objects_
        = some (GetUniqueId s'.unique_id_ o, s'.obj_id_generator_) ∧
      Register env inThisLoop (some o) events s' = none) := by
  have hloop : inThisLoop = true := by
    cases inThisLoop with
    | true => rfl
    | false => simp [Register] at h
  subst hloop
  cases hr : s.reactor_ with
  | none =>
    have hs : s' = s := by
      simp [Register, hid, hr] at h
      exact h.symm
    subst hs
    refine ⟨rfl, fun _ => ⟨rfl, hid, h⟩, fun r hr' => ?_⟩
    simp at hr'
  | some r =>
    cases ha : allocId allocFuel s.obj_id_generator_ s.objects_ with
    | none => simp [Register, hid, hr, ha] at h
    | some idg =>
      obtain ⟨id, gen⟩ := idg
      have hsound := allocId_sound s.objects_ allocFuel _ id gen ha
      rw [Register_of_alloc env s o events r id gen hr hid ha] at h
      simp only [Option.some.injEq, Prod.mk.injEq] at h
      obtain ⟨hok, hs⟩ := h
      rw [hok] at hs
      have hs' : s' = { s with obj_id_generator_ := gen,
                               unique_id_ := SetUniqueId s.unique_id_ o id,
                               reactor_ := some (env.reactorRegister r o id events).2 } := by
        rw [← hs]; simp [registered]
      have huid : GetUniqueId s'.unique_id_ o = id := by
        rw [hs']; simp [GetUniqueId_SetUniqueId]
      refine ⟨by rw [hs'], fun hn => by simp at hn, fun r' _ => ?_⟩
      rw [huid]
      refine ⟨hsound.1, hsound.2, by rw [hs'], ?_⟩
      have hne : ¬ id = -1 := by omega
      simp [Register, huid, hne]

/-- C8, amended, at the rejected registration of object `7`. -/
theorem Register_false_state_witness :
    rejectedLoop.objects_ = rejectLoop.objects_ ∧
    (rejectLoop.reactor_ = none → rejectedLoop = rejectLoop ∧
      GetUniqueId rejectedLoop.unique_id_ 7 = -1 ∧
      Register rejectEnv true (some 7) kEventRead rejectedLoop = some (false, rejectedLoop)) ∧
    (∀ r, rejectLoop.reactor_ = some r →
      0 ≤ GetUniqueId rejectedLoop.unique_id_ 7 ∧
      mapCount rejectLoop.objects_ (GetUniqueId rejectedLoop.unique_id_ 7) = 0 ∧
      allocId allocFuel rejectLoop.obj_id_generator_ rejectLoop.objects_
        = some (GetUniqueId rejectedLoop.unique_id_ 7, rejectedLoop.obj_id_generator_) ∧
      Register rejectEnv true (some 7) kEventRead rejectedLoop = none) :=
  Register_false_state rejectEnv true rejectLoop rejectedLoop 7 kEventRead (by decide)
    (by decide)

/-! ## C9 and C5: Cancel -/

/-- C9. For every timer id and loop state, `Cancel(id)` called on the owning thread
returns a fulfilled future, and called from another thread it returns the future of
the closure it appended to the task FIFO; the boolean of the first equals the
boolean the second carries when the closure runs on the same state, and both are
`reactor.Cancel(id)` when the reactor exists and false when it was dropped. -/
theorem Cancel_paths_agree (env : Env R) (id : TimerId) (s : EventLoop R) :
    (Cancel env true id s).1
      = Future.ready (match s.reactor_ with
                      | some r => (env.reactorCancel r id).1
                      | none => false) ∧
    (Cancel env false id s).1 = Future.posted (Task.cancelTimer id) ∧
    (Cancel env false id s).2.tasks_ = s.tasks_ ++ [Task.cancelTimer id] ∧
    futureValue env (Cancel env false id s).1 s
      = futureValue env (Cancel env true id s).1 s ∧
    futureValue env (Cancel env false id s).1 (Cancel env false id s).2
      = futureValue env (Cancel env true id s).1 s ∧
    futureValue env (Cancel env false id s).1 s
      = some (match s.reactor_ with
              | some r => (env.reactorCancel r id).1
              | none => false) ∧
    (cancelClosure env id s).2 = (Cancel env true id s).2 := by
  cases hr : s.reactor_ with
  | none => simp [Cancel, Execute, futureValue, cancelClosure, hr]
  | some r => simp [Cancel, Execute, futureValue, cancelClosure, hr]

/-- C5. With the reactor of the specification, two consecutive `Cancel(id)` calls
on the loop thread yield true then false when the timer was pending and false then
false when it was not (or when the reactor was dropped); the second call never
yields true, leaves the state as the first call left it, and the timer is not
pending afterwards. -/
theorem Cancel_idempotent (Fd : Nat → Int) (lock : Nat → Bool)
    (user : Nat → EventLoop LibeventReactor → EventLoop LibeventReactor)
    (poll : Nat → EventLoop LibeventReactor → EventLoop LibeventReactor)
    (id : TimerId) (s : EventLoop LibeventReactor) :
    (Cancel (specEnv Fd lock user poll) true id s).1 = Future.ready (timerPending s id) ∧
    (Cancel (specEnv Fd lock user poll) true id
      (Cancel (specEnv Fd lock user poll) true id s).2).1 = Future.ready false ∧
    (Cancel (specEnv Fd lock user poll) true id
      (Cancel (specEnv Fd lock user poll) true id s).2).2
        = (Cancel (specEnv Fd lock user poll) true id s).2 ∧
    timerPending (Cancel (specEnv Fd lock user poll) true id s).2 id = false := by
  cases hr : s.reactor_ with
  | none => simp [Cancel, timerPending, hr]
  | some r =>
    by_cases hp : id ∈ r.timers
    · simp [Cancel, timerPending, hr, specEnv, LibeventReactor.Cancel, hp, List.mem_filter]
    · simp [Cancel, timerPending, hr, specEnv, LibeventReactor.Cancel, hp]

/-! ## C7: Reset -/

/-- Whenever the reactor is live and the object map is not empty and satisfies its
invariant, the first call of `Unregister` made by the loop of `Reset` erases the
entry the loop's iterator points to, and `Reset` has no defined result. -/
theorem Reset_undefined_of_nonempty (env : Env R) (s : EventLoop R) (r : R)
    (hr : s.reactor_ = some r) (hne : s.objects_ ≠ []) (hinv : MapInv s) :
    Reset env true s = none := by
  cases hobj : s.objects_ with
  | nil => exact absurd hobj hne
  | cons p rest =>
    obtain ⟨k, o⟩ := p
    have hmem : (k, o) ∈ s.objects_ := by rw [hobj]; exact List.mem_cons_self _ _
    have hk := hinv.1 (k, o) hmem
    simp only at hk
    have hlt : ¬ GetUniqueId s.unique_id_ o < 0 := by omega
    have hcount : mapCount s.objects_ k = 1 := mapCount_of_mem _ _ _ hmem
    have hun : Unregister env true (some o) s
        = some { s with reactor_ := some (env.reactorUnregister r o k),
                        objects_ := mapErase s.objects_ k } := by
      simp [Unregister, hr, hk.1, hcount, hk.2]
    have hfind : mapFind s.objects_ k = some o := by rw [hobj]; exact mapFind_cons_self _ _ _
    have hloop : resetLoop env true (rest.length + 1) (some k) s = none := by
      simp [resetLoop, hfind, hun, mapCount_mapErase_self]
    simp [Reset, hobj, hloop]

/-- When the object map is empty, `Reset` returns: the task FIFO is emptied and the
loop holds a new reactor and a new notifier. -/
theorem Reset_of_empty (env : Env R) (b : Bool) (s : EventLoop R) (he : s.objects_ = []) :
    ∃ s', Reset env b s = some s' ∧ s'.objects_ = [] ∧ s'.tasks_ = [] ∧
      s'.reactor_ = some env.newReactor ∧ s'.notifier_ = s.next_object ∧
      GetUniqueId s'.unique_id_ s'.notifier_ = -1 := by
  have hloop : resetLoop env b s.objects_.length (s.objects_.head?.map Prod.fst) s = some s := by
    rw [he]; rfl
  refine ⟨{ s with objects_ := []
                   tasks_ := []
                   reactor_ := some env.newReactor
                   notifier_ := s.next_object
                   unique_id_ := SetUniqueId s.unique_id_ s.next_object (-1)
                   notify_count := 0
                   next_object := s.next_object + 1 }, ?_, rfl, rfl, rfl, rfl, ?_⟩
  · simp only [Reset, hloop]
  · simp [GetUniqueId_SetUniqueId]

/-- C7, the failing input. The loop with object `7` registered is reachable from a
fresh loop and satisfies every assertion of `Unregister`, yet `Reset` on the loop
thread has no defined result: `Unregister` erases the map entry that the iterator
of the loop in `Reset` points to. -/
theorem Reset_invalidates_iterator :
    Register demoEnv true (some 7) kEventRead freshLoop = some (true, loopWith7) ∧
    Unregister demoEnv true (some 7) loopWith7
      = some { loopWith7 with reactor_ := some { fds := [], timers := [] }, objects_ := [] } ∧
    Reset demoEnv true loopWith7 = none := by
  decide

/-! ## Facts used for Run -/

theorem runFuncs_trace (env : Env R) (l : List Task) (s : EventLoop R) :
    (runFuncs env l s).2 = l.map Event.ranTask := by
  induction l generalizing s with
  | nil => rfl
  | cons t rest ih => simp [runFuncs, ih]

theorem runTask_effect (env : Env R) (t : Task) (a : EventLoop R) :
    runTask env t a =
      (match t with
       | Task.cancelTimer id =>
         { a with reactor_ := a.reactor_.map (fun r => (env.reactorCancel r id).2) }
       | Task.user n => env.runUser n a) := by
  cases t with
  | user n => rfl
  | cancelTimer id =>
    cases hr : a.reactor_ with
    | none =>
      simp only [runTask, cancelClosure, hr, Option.map_none']
      rw [← hr]
    | some r => simp only [runTask, cancelClosure, hr, Option.map_some']

theorem runFuncs_state (env : Env R) (l : List Task) (s : EventLoop R) :
    (runFuncs env l s).1 = l.foldl
        (fun a t => match t with
          | Task.cancelTimer id =>
            { a with reactor_ := a.reactor_.map (fun r => (env.reactorCancel r id).2) }
          | Task.user n => env.runUser n a) s := by
  induction l generalizing s with
  | nil => rfl
  | cons t rest ih =>
    simp only [runFuncs, List.foldl_cons, ih]
    rw [runTask_effect]

theorem count_ranTask (l : List Task) (t : Task) :
    (l.map Event.ranTask ++ [Event.polled]).count (Event.ranTask t) = l.count t := by
  induction l with
  | nil => simp
  | cons a rest ih =>
    by_cases h : a = t
    · subst h
      simpa using ih
    · have hne : Event.ranTask t ≠ Event.ranTask a := fun e => h (Event.ranTask.inj e).symm
      rw [List.map_cons, List.cons_append, List.count_cons_of_ne hne,
        List.count_cons_of_ne (Ne.symm h)]
      exact ih

theorem foldl_tasks_unchanged (env : Env R)
    (hkeep : ∀ n a, (env.runUser n a).tasks_ = a.tasks_) (l : List Task) (s : EventLoop R) :
    (l.foldl
        (fun a t => match t with
          | Task.cancelTimer id =>
            { a with reactor_ := a.reactor_.map (fun r => (env.reactorCancel r id).2) }
          | Task.user n => env.runUser n a) s).tasks_ = s.tasks_ := by
  induction l generalizing s with
  | nil => rfl
  | cons t rest ih =>
    rw [List.foldl_cons, ih]
    cases t with
    | cancelTimer id => rfl
    | user n => exact hkeep n s

/-- C4. For every task FIFO present when a tick of `Run` acquires the task mutex:
the tick invokes the tasks of the FIFO in FIFO order, each as often as it occurs in
the FIFO: the state it hands to `Poll` is the state after the swap, on which the
effects of the tasks have been applied from the oldest to the newest (a closure of
a collaborator acts by `env.runUser`, the closure of `Cancel` hands the timer to
`env.reactorCancel`); it runs them all before it calls `Poll`; the tasks start on an
empty FIFO, so that the FIFO after the tick holds what was appended after the swap,
and nothing when nothing was appended; and of two tasks `a`, `b` with `a` queued
before `b`, `a` is run before `b`. -/
theorem tick_runs_fifo_in_order (env : Env R) (i : Nat) (s : EventLoop R)
    (hlock : env.try_lock i = true) :
    runFuncs env s.tasks_ { s with tasks_ := [] }
      = (s.tasks_.foldl
          (fun a t => match t with
            | Task.cancelTimer id =>
              { a with reactor_ := a.reactor_.map (fun r => (env.reactorCancel r id).2) }
            | Task.user n => env.runUser n a) { s with tasks_ := [] },
         s.tasks_.map Event.ranTask) ∧
    (∀ r, (runFuncs env s.tasks_ { s with tasks_ := [] }).1.reactor_ = some r →
      tick env i s = some
        (env.Poll i (s.tasks_.foldl
          (fun a t => match t with
            | Task.cancelTimer id =>
              { a with reactor_ := a.reactor_.map (fun r => (env.reactorCancel r id).2) }
            | Task.user n => env.runUser n a) { s with tasks_ := [] }),
         s.tasks_.map Event.ranTask ++ [Event.polled])) ∧
    (∀ s' tr, tick env i s = some (s', tr) →
      tr = s.tasks_.map Event.ranTask ++ [Event.polled] ∧
      s' = env.Poll i (s.tasks_.foldl
          (fun a t => match t with
            | Task.cancelTimer id =>
              { a with reactor_ := a.reactor_.map (fun r => (env.reactorCancel r id).2) }
            | Task.user n => env.runUser n a) { s with tasks_ := [] }) ∧
      (∀ t, tr.count (Event.ranTask t) = s.tasks_.count t) ∧
      ((∀ n a, (env.runUser n a).tasks_ = a.tasks_) →
        (∀ a, (env.Poll i a).tasks_ = a.tasks_) → s'.tasks_ = []) ∧
      (∀ l1 a l2 b l3, s.tasks_ = l1 ++ a :: (l2 ++ b :: l3) →
        tr = l1.map Event.ranTask ++ Event.ranTask a ::
          (l2.map Event.ranTask ++ Event.ranTask b ::
            (l3.map Event.ranTask ++ [Event.polled])))) ∧
    (∀ n sx tr, s.running_ = true → runLoop env (n + 1) i s = some (sx, tr) →
      ∃ s1 tr2, tick env i s = some (s1, s.tasks_.map Event.ranTask ++ [Event.polled]) ∧
        runLoop env n (i + 1) s1 = some (sx, tr2) ∧
        tr = s.tasks_.map Event.ranTask ++ Event.polled :: tr2) := by
  have htick : ∀ s' tr, tick env i s = some (s', tr) →
      tr = s.tasks_.map Event.ranTask ++ [Event.polled] ∧
      s' = env.Poll i (s.tasks_.foldl
          (fun a t => match t with
            | Task.cancelTimer id =>
              { a with reactor_ := a.reactor_.map (fun r => (env.reactorCancel r id).2) }
            | Task.user n => env.runUser n a) { s with tasks_ := [] }) := by
    intro s' tr h
    unfold tick at h
    simp only [hlock, if_true] at h
    cases hr : (runFuncs env s.tasks_ { s with tasks_ := [] }).1.reactor_ with
    | none => simp [hr] at h
    | some r =>
      simp only [hr, Option.some.injEq, Prod.mk.injEq] at h
      rw [runFuncs_trace, runFuncs_state] at h
      exact ⟨h.2.symm, h.1.symm⟩
  refine ⟨?_, ?_, ?_, ?_⟩
  · exact Prod.ext (runFuncs_state env _ _) (runFuncs_trace env _ _)
  rotate_right
  · intro n sx tr hrun h
    unfold runLoop at h
    simp only [hrun, if_true] at h
    cases ht : tick env i s with
    | none => simp [ht] at h
    | some p =>
      obtain ⟨s1, tr1⟩ := p
      simp only [ht] at h
      cases hl : runLoop env n (i + 1) s1 with
      | none => simp [hl] at h
      | some q =>
        obtain ⟨s2, tr2⟩ := q
        simp only [hl, Option.some.injEq, Prod.mk.injEq] at h
        obtain ⟨h1, h2⟩ := h
        subst h1 h2
        have e := (htick s1 tr1 ht).1
        subst e
        exact ⟨s1, tr2, rfl, hl, by simp⟩
  · intro r hr
    unfold tick
    simp only [hlock, if_true, hr]
    rw [runFuncs_trace, runFuncs_state]
  · intro s' tr h
    obtain ⟨h1, h2⟩ := htick s' tr h
    refine ⟨h1, h2, ?_, ?_, ?_⟩
    · intro t
      rw [h1]
      exact count_ranTask _ t
    · intro hkeep hpoll
      rw [h2, hpoll, foldl_tasks_unchanged env hkeep]
    · intro l1 a l2 b l3 hl
      rw [h1, hl]
      simp

/-- C4 at a loop with three queued tasks and timer `5` pending, where every closure
`n` of a collaborator leaves a follow-up closure `n + 10` in the FIFO: the tick runs
the three tasks in order, then polls; timer `5` is cancelled, and the FIFO holds the
two follow-up closures, in the order in which the tasks ran. -/
theorem tick_runs_fifo_in_order_witness :
    tick postingEnv 0 loopQueued
      = some (loopTicked, [Event.ranTask (Task.user 1), Event.ranTask (Task.cancelTimer 5),
                           Event.ranTask (Task.user 2), Event.polled]) ∧
    [Event.ranTask (Task.user 1), Event.ranTask (Task.cancelTimer 5),
      Event.ranTask (Task.user 2), Event.polled]
      = loopQueued.tasks_.map Event.ranTask ++ [Event.polled] ∧
    loopTicked = postingEnv.Poll 0
      (postingEnv.runUser 2
        { postingEnv.runUser 1 { loopQueued with tasks_ := [] } with
          reactor_ := some (postingEnv.reactorCancel { fds := [(7, 1)], timers := [5] } 5).2 }) ∧
    loopTicked.tasks_ = [Task.user 11, Task.user 12] ∧
    loopTicked.reactor_ = some { fds := [(7, 1)], timers := [] } :=
  have ht : tick postingEnv 0 loopQueued
      = some (loopTicked, [Event.ranTask (Task.user 1), Event.ranTask (Task.cancelTimer 5),
                           Event.ranTask (Task.user 2), Event.polled]) := by
    decide
  ⟨ht,
   ((tick_runs_fifo_in_order postingEnv 0 loopQueued rfl).2.2.1 _ _ ht).1,
   ((tick_runs_fifo_in_order postingEnv 0 loopQueued rfl).2.2.1 _ _ ht).2.1,
   rfl, rfl⟩

end pikiwidb

namespace PikaReplServerThread

/-! ## C6: the order of the writes on one file descriptor -/

theorem bufFind_bufAppend_self (m : WriteBuf) (fd : Int) (msg : List Byte) :
    bufFind (bufAppend m fd msg) fd
      = some ((match bufFind m fd with
               | some b => b
               | none => []) ++ msg) := by
  induction m with
  | nil => simp [bufAppend, bufFind]
  | cons p rest ih =>
    obtain ⟨k, b⟩ := p
    unfold bufAppend
    split_ifs with h1
    · simp [bufFind, h1]
    · simp only [bufFind, h1, if_false]
      exact ih

theorem bufFind_bufAppend_ne (m : WriteBuf) (fd g : Int) (msg : List Byte) (hne : g ≠ fd) :
    bufFind (bufAppend m fd msg) g = bufFind m g := by
  induction m with
  | nil =>
    have h : ¬ fd = g := fun e => hne e.symm
    simp [bufAppend, bufFind, h]
  | cons p rest ih =>
    obtain ⟨k, b⟩ := p
    unfold bufAppend
    split_ifs with h1
    · have h : ¬ k = g := fun e => hne (e ▸ h1)
      simp [bufFind, h]
    · by_cases h : k = g
      · simp [bufFind, h]
      · simp only [bufFind, h, if_false]
        exact ih

theorem pendingBytes_Write_self (t : PikaReplServerThread) (msg : List Byte) (p : String)
    (fd : Int) : pendingBytes (Write msg p fd t) fd = pendingBytes t fd ++ msg := by
  simp only [pendingBytes, Write, bufFind_bufAppend_self]

/-- C6. For every file descriptor `f` and byte strings `x`, `y`, after
`Write(x, peer, f)` followed by `Write(y, peer, f)` the pending buffer
`write_buf_[f]` is what it was, then `x`, immediately followed by `y`; the buffer
of every other file descriptor is unchanged, and the two notifications for `f` are
posted in the order of the calls. -/
theorem Write_twice_in_order (t : PikaReplServerThread) (x y : List Byte) (p q : String)
    (f : Int) :
    pendingBytes (Write y q f (Write x p f t)) f = pendingBytes t f ++ x ++ y ∧
    bufFind (Write y q f (Write x p f t)).write_buf_ f = some (pendingBytes t f ++ x ++ y) ∧
    (∀ g, g ≠ f →
      bufFind (Write y q f (Write x p f t)).write_buf_ g = bufFind t.write_buf_ g) ∧
    (Write y q f (Write x p f t)).notified = t.notified ++ [(p, f), (q, f)] := by
  refine ⟨?_, ?_, ?_, ?_⟩
  · rw [pendingBytes_Write_self, pendingBytes_Write_self]
  · simp only [Write, bufFind_bufAppend_self, pendingBytes]
  · intro g hg
    simp only [Write]
    rw [bufFind_bufAppend_ne _ _ _ _ hg, bufFind_bufAppend_ne _ _ _ _ hg]
  · simp [Write]

/-- C6 at a thread with bytes pending on file descriptors `4` and `9`: two writes on
`4` leave the buffer of `9` as it was. -/
theorem Write_twice_in_order_witness :
    pendingBytes (Write [5] "b" 4 (Write [3, 4] "a" 4 demoThread)) 4 = [1, 2, 3, 4, 5] ∧
    bufFind (Write [5] "b" 4 (Write [3, 4] "a" 4 demoThread)).write_buf_ 9
      = bufFind demoThread.write_buf_ 9 :=
  ⟨(Write_twice_in_order demoThread [3, 4] [5] "a" "b" 4).1,
   (Write_twice_in_order demoThread [3, 4] [5] "a" "b" 4).2.2.1 9 (by decide)⟩

end PikaReplServerThread
